import Mathlib

/-!
# Renderdragon-native: bounded asset transfer subsystem, shallow embedding

This file embeds the core of src/main.js — the transfer engine
(downloadToFile), the clipboard delivery command construction
(copyFileToClipboard), the filename sanitizer (sanitizeFilename) and the
temp-area purge (cleanTempDir) — as executable Lean definitions, and proves
the specification's claims about them.

The transfer engine is modelled as a function from a network scenario (what
the transport delivers: a timeout before the response, a request error, or a
response with a status, an optional parsed content length, a list of body
chunk sizes and an ending) to a trace of observable events (file creation,
chunk writes, unlink start/completion, promise settlement), ordered as the
Node.js event loop orders them: a synchronous reject settles the promise
before any pending asynchronous fs.unlink callback completes.
-/

namespace Renderdragon

/-- Decimal digit characters for a natural number, most significant first:
the model of JavaScript template interpolation of a number. -/
def decRepr (n : Nat) : List Char :=
  ((Nat.digits 10 n).map (fun d => Char.ofNat (48 + d))).reverse

/-- Inverse digit map, used to prove `decRepr` injective. -/
def charToDigit (c : Char) : Nat := c.toNat - 48

theorem charToDigit_roundtrip (d : Nat) (hd : d < 10) :
    charToDigit (Char.ofNat (48 + d)) = d := by
  interval_cases d <;> decide

theorem decRepr_injective : Function.Injective decRepr := by
  intro a b h
  have h2 : ((Nat.digits 10 a).map (fun d => Char.ofNat (48 + d))) =
      ((Nat.digits 10 b).map (fun d => Char.ofNat (48 + d))) :=
    List.reverse_injective h
  have hmap : ∀ n : Nat,
      (((Nat.digits 10 n).map (fun d => Char.ofNat (48 + d))).map charToDigit)
        = Nat.digits 10 n := by
    intro n
    rw [List.map_map]
    have : ∀ d ∈ Nat.digits 10 n, (charToDigit ∘ fun d => Char.ofNat (48 + d)) d = id d := by
      intro d hdmem
      have hd : d < 10 := Nat.digits_lt_base (by norm_num) hdmem
      simpa using charToDigit_roundtrip d hd
    rw [List.map_congr_left this, List.map_id]
  have hdig : Nat.digits 10 a = Nat.digits 10 b := by
    rw [← hmap a, ← hmap b, h2]
  calc a = Nat.ofDigits 10 (Nat.digits 10 a) := (Nat.ofDigits_digits 10 a).symm
    _ = Nat.ofDigits 10 (Nat.digits 10 b) := by rw [hdig]
    _ = b := Nat.ofDigits_digits 10 b

/-! ## Transfer engine (downloadToFile, src/main.js lines 94-153) -/

/-- The uniform settled result of the transfer promise: resolve carries the
destination path, reject carries the error message string. -/
inductive Outcome where
  | success (path : String)
  | failure (msg : String)
deriving DecidableEq, Repr

/-- Observable events of one downloadToFile invocation, in event-loop order:
file-stream creation, chunk writes, start of an fs.unlink call, completion of
its callback, and promise settlement (first resolve/reject wins). -/
inductive Ev where
  | create (p : String)
  | write (p : String) (n : Nat)
  | unlinkStart (p : String)
  | unlinkComplete (p : String)
  | settled (o : Outcome)
deriving DecidableEq, Repr

/-- How the delivered body stream ends after the listed chunks. -/
inductive Ending where
  | finish
  | writeError (msg : String)
  | timeout
  | transportError (msg : String)
deriving DecidableEq, Repr

/-- What the transport layer delivers for one request: either the socket
timeout fires before any response, or the request errors, or a response
arrives with a status code, an optional parsed content length (none models a
missing or non-numeric header, whose parseInt is NaN), the body chunk sizes
actually streamed, and an ending. -/
inductive Scenario where
  | timeoutBeforeResponse
  | requestError (msg : String)
  | response (status : Nat) (contentLength : Option Nat) (chunks : List Nat)
      (ending : Ending)
deriving DecidableEq, Repr

/-- Transport selected from the URL scheme prefix, as in
url.startsWith('https') ? https : http. -/
inductive Transport where
  | secure
  | plain
deriving DecidableEq, Repr

def protocolFor (url : String) : Transport :=
  if url.startsWith "https" then .secure else .plain

def numStr (n : Nat) : String := String.mk (decRepr n)

def httpStatusMsg (st : Nat) : String := "HTTP status code " ++ numStr st

def declaredSizeMsg (len maxB : Nat) : String :=
  "File size (" ++ numStr len ++ " bytes) exceeds limit of " ++ numStr maxB ++ " bytes"

def streamSizeMsg (maxB : Nat) : String :=
  "File size exceeds limit of " ++ numStr maxB ++ " bytes"

def timeoutMsg : String := "Request timed out"

/-- Default maxSizeBytes option: 500 * 1024 * 1024. -/
def maxSizeBytesDefault : Nat := 500 * 1024 * 1024

/-- Default timeout option in milliseconds. -/
def timeoutMsDefault : Nat := 30000

/-- Streaming loop: the data listener adds each chunk length to
receivedBytes and, on the first cumulative breach of maxB, destroys the
response (no further chunks), initiates file.close whose callback starts the
unlink, and rejects synchronously — so the settlement precedes the unlink
events. A chunk delivered to the already-closing stream is not recorded as a
write; chunks below the ceiling are written by the pipe. After the last
chunk, the ending decides: finish resolves; a file-stream error or a request
error or socket timeout each start an unlink synchronously, reject, and the
unlink callback completes afterwards. -/
def runChunks (p : String) (maxB : Nat) : Nat → List Nat → Ending → List Ev
  | _, [], .finish => [.settled (.success p)]
  | _, [], .writeError m => [.unlinkStart p, .settled (.failure m), .unlinkComplete p]
  | _, [], .timeout => [.unlinkStart p, .settled (.failure timeoutMsg), .unlinkComplete p]
  | _, [], .transportError m => [.unlinkStart p, .settled (.failure m), .unlinkComplete p]
  | acc, c :: cs, e =>
    if maxB < acc + c then
      [.settled (.failure (streamSizeMsg maxB)), .unlinkStart p, .unlinkComplete p]
    else
      .write p c :: runChunks p maxB (acc + c) cs e

/-- The transfer engine: event trace of one downloadToFile(url, filepath,
options) invocation under a given transport scenario. Source order: non-2xx
status rejects before any file is created; then a declared content length
above maxB rejects before any file is created; otherwise the write stream is
created and the body is streamed. -/
def downloadToFile (filepath : String) (maxB : Nat) : Scenario → List Ev
  | .timeoutBeforeResponse =>
    [.unlinkStart filepath, .settled (.failure timeoutMsg), .unlinkComplete filepath]
  | .requestError m =>
    [.unlinkStart filepath, .settled (.failure m), .unlinkComplete filepath]
  | .response st cl chunks e =>
    if st < 200 ∨ 300 ≤ st then
      [.settled (.failure (httpStatusMsg st))]
    else
      match cl with
      | some len =>
        if maxB < len then [.settled (.failure (declaredSizeMsg len maxB))]
        else .create filepath :: runChunks filepath maxB 0 chunks e
      | none => .create filepath :: runChunks filepath maxB 0 chunks e

/-- The outcome a caller observes: the first settlement in the trace. -/
def findSettled : List Ev → Option Outcome
  | [] => none
  | .settled o :: _ => some o
  | _ :: es => findSettled es

/-- Effect of one event on the file at path p: none models an absent file,
some n a file of n bytes. -/
def applyEv (p : String) (st : Option Nat) : Ev → Option Nat
  | .create q => if q = p then some 0 else st
  | .write q n => if q = p then st.map (· + n) else st
  | .unlinkComplete q => if q = p then none else st
  | _ => st

/-- State of the file at path p after the whole trace, starting from an
absent file. -/
def fsAfter (p : String) (evs : List Ev) : Option Nat :=
  evs.foldl (applyEv p) none

/-- True when an unlink of p completes strictly before the first settlement
of the promise: the ordering the spec calls clean-then-report. -/
def unlinkCompleteBeforeSettle (p : String) : List Ev → Bool
  | [] => false
  | .settled _ :: _ => false
  | .unlinkComplete q :: es => q = p || unlinkCompleteBeforeSettle p es
  | _ :: es => unlinkCompleteBeforeSettle p es

/-- Total bytes the source delivers in a scenario. -/
def bodyBytes : Scenario → Nat
  | .response _ _ chunks _ => chunks.sum
  | _ => 0

theorem runChunks_settles (p : String) (maxB : Nat) :
    ∀ (chunks : List Nat) (acc : Nat) (e : Ending),
      (findSettled (runChunks p maxB acc chunks e)).isSome := by
  intro chunks
  induction chunks with
  | nil => intro acc e; cases e <;> simp [runChunks, findSettled]
  | cons c cs ih =>
    intro acc e
    by_cases h : maxB < acc + c
    · simp [runChunks, h, findSettled]
    · simp [runChunks, h, findSettled, ih]

theorem runChunks_failure_fold (p : String) (maxB : Nat) :
    ∀ (chunks : List Nat) (acc sz : Nat) (e : Ending) (m : String),
      findSettled (runChunks p maxB acc chunks e) = some (.failure m) →
      List.foldl (applyEv p) (some sz) (runChunks p maxB acc chunks e) = none := by
  intro chunks
  induction chunks with
  | nil =>
    intro acc sz e m h
    cases e <;> simp [runChunks, findSettled] at h <;>
      simp [runChunks, applyEv]
  | cons c cs ih =>
    intro acc sz e m h
    by_cases hb : maxB < acc + c
    · simp [runChunks, hb, applyEv]
    · simp only [runChunks, hb, if_false, findSettled] at h
      simp only [runChunks, hb, if_false, List.foldl_cons]
      have hstep : applyEv p (some sz) (.write p c) = some (sz + c) := by
        simp [applyEv]
      rw [hstep]
      exact ih (acc + c) (sz + c) e m h

theorem runChunks_success_fold (p : String) (maxB : Nat) :
    ∀ (chunks : List Nat) (acc sz : Nat) (e : Ending) (q : String),
      findSettled (runChunks p maxB acc chunks e) = some (.success q) →
      q = p ∧ e = .finish ∧
      List.foldl (applyEv p) (some sz) (runChunks p maxB acc chunks e)
        = some (sz + chunks.sum) := by
  intro chunks
  induction chunks with
  | nil =>
    intro acc sz e q h
    cases e <;> simp [runChunks, findSettled] at h
    exact ⟨h.symm, rfl, by simp [runChunks, applyEv]⟩
  | cons c cs ih =>
    intro acc sz e q h
    by_cases hb : maxB < acc + c
    · simp [runChunks, hb, findSettled] at h
    · simp only [runChunks, hb, if_false, findSettled] at h
      simp only [runChunks, hb, if_false, List.foldl_cons]
      have hstep : applyEv p (some sz) (.write p c) = some (sz + c) := by
        simp [applyEv]
      rw [hstep]
      obtain ⟨hq, he, hfold⟩ := ih (acc + c) (sz + c) e q h
      exact ⟨hq, he, by rw [hfold]; congr 1; simp [List.sum_cons]; omega⟩

theorem runChunks_breach (p : String) (maxB : Nat) :
    ∀ (chunks : List Nat) (acc : Nat) (e : Ending),
      acc ≤ maxB → maxB < acc + chunks.sum →
      findSettled (runChunks p maxB acc chunks e)
        = some (.failure (streamSizeMsg maxB)) := by
  intro chunks
  induction chunks with
  | nil => intro acc e hle hgt; simp at hgt; omega
  | cons c cs ih =>
    intro acc e hle hgt
    by_cases hb : maxB < acc + c
    · simp [runChunks, hb, findSettled]
    · simp only [runChunks, hb, if_false, findSettled]
      exact ih (acc + c) e (by omega) (by simp [List.sum_cons] at hgt ⊢; omega)

theorem runChunks_failure_unlink (p : String) (maxB : Nat) :
    ∀ (chunks : List Nat) (acc : Nat) (e : Ending) (m : String),
      findSettled (runChunks p maxB acc chunks e) = some (.failure m) →
      Ev.unlinkComplete p ∈ runChunks p maxB acc chunks e := by
  intro chunks
  induction chunks with
  | nil =>
    intro acc e m h
    cases e <;> simp [runChunks, findSettled] at h <;> simp [runChunks]
  | cons c cs ih =>
    intro acc e m h
    by_cases hb : maxB < acc + c
    · simp [runChunks, hb]
    · simp only [runChunks, hb, if_false, findSettled] at h
      simp only [runChunks, hb, if_false, List.mem_cons]
      exact Or.inr (ih (acc + c) e m h)

theorem runChunks_noUCBS (p : String) (maxB : Nat) :
    ∀ (chunks : List Nat) (acc : Nat) (e : Ending),
      unlinkCompleteBeforeSettle p (runChunks p maxB acc chunks e) = false := by
  intro chunks
  induction chunks with
  | nil => intro acc e; cases e <;> simp [runChunks, unlinkCompleteBeforeSettle]
  | cons c cs ih =>
    intro acc e
    by_cases hb : maxB < acc + c
    · simp [runChunks, hb, unlinkCompleteBeforeSettle]
    · simp [runChunks, hb, unlinkCompleteBeforeSettle, ih]

theorem runChunks_fold_other (p q : String) (hq : ¬ (p = q)) (maxB : Nat) :
    ∀ (chunks : List Nat) (acc : Nat) (e : Ending) (x : Option Nat),
      List.foldl (applyEv q) x (runChunks p maxB acc chunks e) = x := by
  intro chunks
  induction chunks with
  | nil => intro acc e x; cases e <;> simp [runChunks, applyEv, hq]
  | cons c cs ih =>
    intro acc e x
    by_cases hb : maxB < acc + c
    · simp [runChunks, hb, applyEv, hq]
    · simp [runChunks, hb, applyEv, hq, ih]

theorem downloadToFile_settles (p : String) (maxB : Nat) (s : Scenario) :
    (findSettled (downloadToFile p maxB s)).isSome := by
  cases s with
  | timeoutBeforeResponse => simp [downloadToFile, findSettled]
  | requestError m => simp [downloadToFile, findSettled]
  | response st cl chunks e =>
    by_cases hst : st < 200 ∨ 300 ≤ st
    · simp [downloadToFile, hst, findSettled]
    · cases cl with
      | none => simp [downloadToFile, hst, findSettled, runChunks_settles]
      | some len =>
        by_cases hlen : maxB < len
        · simp [downloadToFile, hst, hlen, findSettled]
        · simp [downloadToFile, hst, hlen, findSettled, runChunks_settles]

theorem downloadToFile_failure_fs (p : String) (maxB : Nat) (s : Scenario) (m : String)
    (h : findSettled (downloadToFile p maxB s) = some (.failure m)) :
    fsAfter p (downloadToFile p maxB s) = none := by
  cases s with
  | timeoutBeforeResponse => simp [downloadToFile, fsAfter, applyEv]
  | requestError m2 => simp [downloadToFile, fsAfter, applyEv]
  | response st cl chunks e =>
    by_cases hst : st < 200 ∨ 300 ≤ st
    · simp [downloadToFile, hst, fsAfter, applyEv]
    · cases cl with
      | none =>
        simp only [downloadToFile, hst, if_false, findSettled] at h
        simp only [downloadToFile, hst, if_false, fsAfter, List.foldl_cons]
        have hstep : applyEv p none (.create p) = some 0 := by simp [applyEv]
        rw [hstep]
        exact runChunks_failure_fold p maxB chunks 0 0 e m h
      | some len =>
        by_cases hlen : maxB < len
        · simp [downloadToFile, hst, hlen, fsAfter, applyEv]
        · simp only [downloadToFile, hst, hlen, if_false, findSettled] at h
          simp only [downloadToFile, hst, hlen, if_false, fsAfter, List.foldl_cons]
          have hstep : applyEv p none (.create p) = some 0 := by simp [applyEv]
          rw [hstep]
          exact runChunks_failure_fold p maxB chunks 0 0 e m h

theorem downloadToFile_success_fs (p : String) (maxB : Nat) (s : Scenario) (q : String)
    (h : findSettled (downloadToFile p maxB s) = some (.success q)) :
    q = p ∧ fsAfter p (downloadToFile p maxB s) = some (bodyBytes s) := by
  cases s with
  | timeoutBeforeResponse => simp [downloadToFile, findSettled] at h
  | requestError m => simp [downloadToFile, findSettled] at h
  | response st cl chunks e =>
    by_cases hst : st < 200 ∨ 300 ≤ st
    · simp [downloadToFile, hst, findSettled] at h
    · cases cl with
      | none =>
        simp only [downloadToFile, hst, if_false, findSettled] at h
        simp only [downloadToFile, hst, if_false, fsAfter, List.foldl_cons, bodyBytes]
        have hstep : applyEv p none (.create p) = some 0 := by simp [applyEv]
        rw [hstep]
        obtain ⟨hq, _, hfold⟩ := runChunks_success_fold p maxB chunks 0 0 e q h
        exact ⟨hq, by rw [hfold]; simp⟩
      | some len =>
        by_cases hlen : maxB < len
        · simp [downloadToFile, hst, hlen, findSettled] at h
        · simp only [downloadToFile, hst, hlen, if_false, findSettled] at h
          simp only [downloadToFile, hst, hlen, if_false, fsAfter, List.foldl_cons, bodyBytes]
          have hstep : applyEv p none (.create p) = some 0 := by simp [applyEv]
          rw [hstep]
          obtain ⟨hq, _, hfold⟩ := runChunks_success_fold p maxB chunks 0 0 e q h
          exact ⟨hq, by rw [hfold]; simp⟩

theorem downloadToFile_other_fs (p q : String) (hq : ¬ (p = q)) (maxB : Nat)
    (s : Scenario) : fsAfter q (downloadToFile p maxB s) = none := by
  cases s with
  | timeoutBeforeResponse => simp [downloadToFile, fsAfter, applyEv, hq]
  | requestError m => simp [downloadToFile, fsAfter, applyEv, hq]
  | response st cl chunks e =>
    by_cases hst : st < 200 ∨ 300 ≤ st
    · simp [downloadToFile, hst, fsAfter, applyEv]
    · cases cl with
      | none =>
        simp only [downloadToFile, hst, if_false, fsAfter, List.foldl_cons]
        have hstep : applyEv q none (.create p) = none := by simp [applyEv, hq]
        rw [hstep]
        exact runChunks_fold_other p q hq maxB chunks 0 e none
      | some len =>
        by_cases hlen : maxB < len
        · simp [downloadToFile, hst, hlen, fsAfter, applyEv]
        · simp only [downloadToFile, hst, hlen, if_false, fsAfter, List.foldl_cons]
          have hstep : applyEv q none (.create p) = none := by simp [applyEv, hq]
          rw [hstep]
          exact runChunks_fold_other p q hq maxB chunks 0 e none

theorem downloadToFile_noUCBS (p : String) (maxB : Nat) (s : Scenario) :
    unlinkCompleteBeforeSettle p (downloadToFile p maxB s) = false := by
  cases s with
  | timeoutBeforeResponse => simp [downloadToFile, unlinkCompleteBeforeSettle]
  | requestError m => simp [downloadToFile, unlinkCompleteBeforeSettle]
  | response st cl chunks e =>
    by_cases hst : st < 200 ∨ 300 ≤ st
    · simp [downloadToFile, hst, unlinkCompleteBeforeSettle]
    · cases cl with
      | none =>
        simp [downloadToFile, hst, unlinkCompleteBeforeSettle, runChunks_noUCBS]
      | some len =>
        by_cases hlen : maxB < len
        · simp [downloadToFile, hst, hlen, unlinkCompleteBeforeSettle]
        · simp [downloadToFile, hst, hlen, unlinkCompleteBeforeSettle, runChunks_noUCBS]

theorem downloadToFile_failure_unlinkMem (p : String) (maxB : Nat) (s : Scenario)
    (m : String) (h : findSettled (downloadToFile p maxB s) = some (.failure m))
    (hc : Ev.create p ∈ downloadToFile p maxB s) :
    Ev.unlinkComplete p ∈ downloadToFile p maxB s := by
  cases s with
  | timeoutBeforeResponse => simp [downloadToFile]
  | requestError m2 => simp [downloadToFile]
  | response st cl chunks e =>
    by_cases hst : st < 200 ∨ 300 ≤ st
    · simp [downloadToFile, hst] at hc
    · cases cl with
      | none =>
        simp only [downloadToFile, hst, if_false, findSettled] at h
        simp only [downloadToFile, hst, if_false, List.mem_cons]
        exact Or.inr (runChunks_failure_unlink p maxB chunks 0 e m h)
      | some len =>
        by_cases hlen : maxB < len
        · simp [downloadToFile, hst, hlen] at hc
        · simp only [downloadToFile, hst, hlen, if_false, findSettled] at h
          simp only [downloadToFile, hst, hlen, if_false, List.mem_cons]
          exact Or.inr (runChunks_failure_unlink p maxB chunks 0 e m h)

/-! ## Claims about the transfer engine -/

/-- C1: every failing downloadToFile invocation — non-2xx status, declared or
observed size breach, timeout, transport error, or filesystem write error —
leaves no file at the destination path once the trace completes, and in the
non-2xx and declared-oversize cases no file is ever created. -/
theorem C1_failure_leaves_no_file (p : String) (maxB : Nat) (s : Scenario) (m : String)
    (h : findSettled (downloadToFile p maxB s) = some (.failure m)) :
    fsAfter p (downloadToFile p maxB s) = none ∧
    (∀ st cl chunks e, s = .response st cl chunks e → (st < 200 ∨ 300 ≤ st) →
      Ev.create p ∉ downloadToFile p maxB s) ∧
    (∀ st len chunks e, s = .response st (some len) chunks e → maxB < len →
      Ev.create p ∉ downloadToFile p maxB s) := by
  refine ⟨downloadToFile_failure_fs p maxB s m h, ?_, ?_⟩
  · rintro st cl chunks e rfl hst
    simp [downloadToFile, hst]
  · rintro st len chunks e rfl hlen
    by_cases hst : st < 200 ∨ 300 ≤ st
    · simp [downloadToFile, hst]
    · simp [downloadToFile, hst, hlen]

/-- Witness for C1 at a concrete failing input: a 404 response. -/
theorem C1_failure_leaves_no_file_witness :
    findSettled (downloadToFile "/tmp/f" 1000 (.response 404 none [] .finish))
      = some (.failure (httpStatusMsg 404)) ∧
    fsAfter "/tmp/f" (downloadToFile "/tmp/f" 1000 (.response 404 none [] .finish))
      = none := by
  have h : findSettled (downloadToFile "/tmp/f" 1000 (.response 404 none [] .finish))
      = some (.failure (httpStatusMsg 404)) := rfl
  exact ⟨h, (C1_failure_leaves_no_file "/tmp/f" 1000 _ _ h).1⟩

/-- C8: a response declaring a content length strictly above maxBytes (with a
success status, so the declared-length check is the one that fires) is
rejected immediately with the declared size-limit error message, before any
file is created or any byte written. -/
theorem C8_declared_oversize_rejected (p : String) (maxB len st : Nat)
    (chunks : List Nat) (e : Ending)
    (hst : 200 ≤ st ∧ st < 300) (hlen : maxB < len) :
    findSettled (downloadToFile p maxB (.response st (some len) chunks e))
      = some (.failure (declaredSizeMsg len maxB)) ∧
    Ev.create p ∉ downloadToFile p maxB (.response st (some len) chunks e) ∧
    (∀ q n, Ev.write q n ∉ downloadToFile p maxB (.response st (some len) chunks e)) ∧
    fsAfter p (downloadToFile p maxB (.response st (some len) chunks e)) = none := by
  have hst2 : ¬ (st < 200 ∨ 300 ≤ st) := by omega
  refine ⟨?_, ?_, ?_, ?_⟩
  · simp [downloadToFile, hst2, hlen, findSettled]
  · simp [downloadToFile, hst2, hlen]
  · intro q n; simp [downloadToFile, hst2, hlen]
  · simp [downloadToFile, hst2, hlen, fsAfter, applyEv]

/-- Witness for C8: maxBytes 1000, declared Content-Length 2000. -/
theorem C8_declared_oversize_rejected_witness :
    (200 ≤ 200 ∧ 200 < 300) ∧ (1000 : Nat) < 2000 ∧
    findSettled (downloadToFile "/tmp/f" 1000 (.response 200 (some 2000) [] .finish))
      = some (.failure (declaredSizeMsg 2000 1000)) ∧
    fsAfter "/tmp/f" (downloadToFile "/tmp/f" 1000 (.response 200 (some 2000) [] .finish))
      = none := by
  have h := C8_declared_oversize_rejected "/tmp/f" 1000 2000 200 [] .finish
    (by omega) (by omega)
  exact ⟨⟨by omega, by omega⟩, by omega, h.1, h.2.2.2⟩

/-- C3: a success-status response whose content length is undeclared or
declared within the limit, but whose streamed body cumulatively exceeds
maxBytes, fails with the mid-stream size-limit error and leaves no file at
the destination. -/
theorem C3_midstream_breach_aborts (p : String) (maxB st : Nat) (cl : Option Nat)
    (chunks : List Nat) (e : Ending)
    (hst : 200 ≤ st ∧ st < 300)
    (hcl : cl = none ∨ ∃ len, cl = some len ∧ len ≤ maxB)
    (hsum : maxB < chunks.sum) :
    findSettled (downloadToFile p maxB (.response st cl chunks e))
      = some (.failure (streamSizeMsg maxB)) ∧
    fsAfter p (downloadToFile p maxB (.response st cl chunks e)) = none := by
  have hst2 : ¬ (st < 200 ∨ 300 ≤ st) := by omega
  have hset : findSettled (downloadToFile p maxB (.response st cl chunks e))
      = some (.failure (streamSizeMsg maxB)) := by
    rcases hcl with rfl | ⟨len, rfl, hle⟩
    · simp only [downloadToFile, hst2, if_false, findSettled]
      exact runChunks_breach p maxB chunks 0 e (Nat.zero_le _) (by omega)
    · have hlen : ¬ (maxB < len) := by omega
      simp only [downloadToFile, hst2, hlen, if_false, findSettled]
      exact runChunks_breach p maxB chunks 0 e (Nat.zero_le _) (by omega)
  exact ⟨hset, downloadToFile_failure_fs p maxB _ _ hset⟩

/-- Witness for C3: maxBytes 1000, undeclared length, 1500 bytes streamed. -/
theorem C3_midstream_breach_aborts_witness :
    (1000 : Nat) < List.sum [600, 900] ∧
    findSettled (downloadToFile "/tmp/f" 1000 (.response 200 none [600, 900] .finish))
      = some (.failure (streamSizeMsg 1000)) ∧
    fsAfter "/tmp/f" (downloadToFile "/tmp/f" 1000 (.response 200 none [600, 900] .finish))
      = none := by
  have h := C3_midstream_breach_aborts "/tmp/f" 1000 200 none [600, 900] .finish
    (by omega) (Or.inl rfl) (by simp)
  exact ⟨by simp, h.1, h.2⟩

/-- C7: a successful transfer resolves with the destination path, the
destination file exists with byte length equal to the total bytes received,
and no file exists at any other path; instantiated at a zero-byte body this
gives a zero-length file (see the witness). -/
theorem C7_success_file_matches (p q : String) (maxB : Nat) (s : Scenario)
    (h : findSettled (downloadToFile p maxB s) = some (.success q)) :
    q = p ∧ fsAfter p (downloadToFile p maxB s) = some (bodyBytes s) ∧
    ∀ r, ¬ (p = r) → fsAfter r (downloadToFile p maxB s) = none := by
  obtain ⟨hq, hfs⟩ := downloadToFile_success_fs p maxB s q h
  exact ⟨hq, hfs, fun r hr => downloadToFile_other_fs p r hr maxB s⟩

/-- Witness for C7: a successful zero-byte response yields a zero-length
file at the destination. -/
theorem C7_success_file_matches_witness :
    findSettled (downloadToFile "/tmp/f" 1000 (.response 200 none [] .finish))
      = some (.success "/tmp/f") ∧
    fsAfter "/tmp/f" (downloadToFile "/tmp/f" 1000 (.response 200 none [] .finish))
      = some 0 := by
  have h : findSettled (downloadToFile "/tmp/f" 1000 (.response 200 none [] .finish))
      = some (.success "/tmp/f") := rfl
  exact ⟨h, (C7_success_file_matches "/tmp/f" "/tmp/f" 1000 _ h).2.1⟩

/-- C5 counterexample: a 301 redirect response delivered to the engine is
rejected as a failing HTTP status — the transfer does not proceed to any
redirect target, refuting the claim that a redirect response never causes
the transfer to fail. -/
theorem C5_redirect_fails_counterexample :
    findSettled (downloadToFile "/tmp/f" 1000 (.response 301 none [] .finish))
      = some (.failure (httpStatusMsg 301)) := rfl

/-- C5 amended: every 3xx response the transport delivers is treated as a
non-success status: the engine fails with the HTTP status error and creates
no file. The engine itself never follows a redirect. -/
theorem C5_redirect_treated_as_status_failure (p : String) (maxB st : Nat)
    (cl : Option Nat) (chunks : List Nat) (e : Ending)
    (h3 : 300 ≤ st) :
    findSettled (downloadToFile p maxB (.response st cl chunks e))
      = some (.failure (httpStatusMsg st)) ∧
    Ev.create p ∉ downloadToFile p maxB (.response st cl chunks e) := by
  have hst : st < 200 ∨ 300 ≤ st := Or.inr h3
  constructor
  · simp [downloadToFile, hst, findSettled]
  · simp [downloadToFile, hst]

/-- Witness for the amended C5 at a concrete 302 response. -/
theorem C5_redirect_treated_as_status_failure_witness :
    (300 : Nat) ≤ 302 ∧
    findSettled (downloadToFile "/tmp/f" 1000 (.response 302 none [] .finish))
      = some (.failure (httpStatusMsg 302)) := by
  exact ⟨by omega,
    (C5_redirect_treated_as_status_failure "/tmp/f" 1000 302 none [] .finish
      (by omega)).1⟩

/-- C4 counterexample: on the write-error failure path a partial file was
created, the promise settles with the failure, and no unlink of the
destination completes before that settlement — the engine reports first and
the fire-and-forget cleanup completes afterwards, refuting clean-then-report
as stated. -/
theorem C4_cleanup_not_before_report_counterexample :
    Ev.create "/tmp/f"
      ∈ downloadToFile "/tmp/f" 1000 (.response 200 none [5] (.writeError "disk full")) ∧
    findSettled (downloadToFile "/tmp/f" 1000 (.response 200 none [5] (.writeError "disk full")))
      = some (.failure "disk full") ∧
    unlinkCompleteBeforeSettle "/tmp/f"
      (downloadToFile "/tmp/f" 1000 (.response 200 none [5] (.writeError "disk full")))
      = false := by
  refine ⟨by decide, rfl, by decide⟩

/-- C4 amended: on every failing transfer, no deletion of the destination
completes before the failure settles (the unlink is initiated
asynchronously and its callback runs only after the rejection); whenever a
partial file was created, an unlink of it does complete later in the trace,
and the destination is absent once the trace ends. -/
theorem C4_cleanup_completes_after_report (p : String) (maxB : Nat) (s : Scenario)
    (m : String) (h : findSettled (downloadToFile p maxB s) = some (.failure m)) :
    unlinkCompleteBeforeSettle p (downloadToFile p maxB s) = false ∧
    (Ev.create p ∈ downloadToFile p maxB s →
      Ev.unlinkComplete p ∈ downloadToFile p maxB s) ∧
    fsAfter p (downloadToFile p maxB s) = none :=
  ⟨downloadToFile_noUCBS p maxB s,
   fun hc => downloadToFile_failure_unlinkMem p maxB s m h hc,
   downloadToFile_failure_fs p maxB s m h⟩

/-- Witness for the amended C4 at the write-error input. -/
theorem C4_cleanup_completes_after_report_witness :
    unlinkCompleteBeforeSettle "/tmp/g"
      (downloadToFile "/tmp/g" 1000 (.response 200 none [7] (.writeError "EIO")))
      = false ∧
    fsAfter "/tmp/g"
      (downloadToFile "/tmp/g" 1000 (.response 200 none [7] (.writeError "EIO")))
      = none := by
  have h : findSettled (downloadToFile "/tmp/g" 1000 (.response 200 none [7] (.writeError "EIO")))
      = some (.failure "EIO") := rfl
  have hall := C4_cleanup_completes_after_report "/tmp/g" 1000 _ "EIO" h
  exact ⟨hall.1, hall.2.2⟩

/-! ## Temp area manager (cleanTempDir, src/main.js lines 13-30) -/

/-- State of the managed temp directory: whether it exists and its entries. -/
structure TempState where
  dirExists : Bool
  files : List String
deriving DecidableEq, Repr

/-- cleanTempDir: if the directory exists, unlinkSync each entry inside a
per-file try/catch — a failing deletion (canDelete f = false) is logged and
iteration continues — otherwise mkdir the directory. The surrounding
try/catch means the function never throws. -/
def cleanTempDir (canDelete : String → Bool) (st : TempState) : TempState :=
  if st.dirExists then
    { dirExists := true, files := st.files.filter (fun f => !(canDelete f)) }
  else
    { dirExists := true, files := [] }

theorem filter_idem {α : Type} (p : α → Bool) (l : List α) :
    (l.filter p).filter p = l.filter p := by
  induction l with
  | nil => rfl
  | cons a l ih =>
    by_cases h : p a = true
    · simp [List.filter_cons, h, ih]
    · simp [List.filter_cons, h, ih]

/-- C9 counterexample: from a state holding one entry whose deletion fails,
one run of the purge leaves the directory non-empty, refuting the claim that
from every filesystem state the temp directory is empty after each run. -/
theorem C9_purge_not_always_empty_counterexample :
    (cleanTempDir (fun _ => false)
      { dirExists := true, files := ["stuck.png"] }).files ≠ [] := by
  decide

/-- C9 amended: the purge never throws and is idempotent as a state
transformer (a second run with the same deletion behavior changes nothing);
it always leaves the directory existing; it attempts every entry, keeping
exactly those whose individual deletion fails (so one failure does not abort
the rest); and when every deletion succeeds the directory is left empty. -/
theorem C9_purge_idempotent_best_effort (canDelete : String → Bool) (st : TempState) :
    cleanTempDir canDelete (cleanTempDir canDelete st) = cleanTempDir canDelete st ∧
    (cleanTempDir canDelete st).dirExists = true ∧
    (cleanTempDir canDelete st).files
      = (if st.dirExists then st.files.filter (fun f => !(canDelete f)) else []) ∧
    ((∀ f, canDelete f = true) → (cleanTempDir canDelete st).files = []) := by
  refine ⟨?_, ?_, ?_, ?_⟩
  · by_cases h : st.dirExists <;> simp [cleanTempDir, h, filter_idem]
  · by_cases h : st.dirExists <;> simp [cleanTempDir, h]
  · by_cases h : st.dirExists <;> simp [cleanTempDir, h]
  · intro hall
    by_cases h : st.dirExists <;> simp [cleanTempDir, h, List.filter_eq_nil_iff, hall]

/-- Witness for the amended C9: with all deletions succeeding, a run on a
populated directory leaves it empty. -/
theorem C9_purge_idempotent_best_effort_witness :
    (cleanTempDir (fun _ => true)
      { dirExists := true, files := ["a.png", "b.ogg"] }).files = [] :=
  (C9_purge_idempotent_best_effort (fun _ => true)
    { dirExists := true, files := ["a.png", "b.ogg"] }).2.2.2 (fun _ => rfl)

/-! ## Filename sanitizer (sanitizeFilename, src/main.js lines 32-37) -/

/-- The allow-list of the regex [a-zA-Z0-9._-]: a character the replace
keeps. -/
def isAllowed (c : Char) : Bool :=
  (97 ≤ c.toNat && c.toNat ≤ 122) || (65 ≤ c.toNat && c.toNat ≤ 90) ||
    (48 ≤ c.toNat && c.toNat ≤ 57) || c == '.' || c == '_' || c == '-'

/-- filename.replace of every character outside the allow-list by an
underscore. -/
def sanitizedBase (filename : List Char) : List Char :=
  filename.map (fun c => if isAllowed c then c else '_')

/-- Index of the last dot, scanning left to right with a running index. -/
def lastDotAux : List Char → Nat → Option Nat → Option Nat
  | [], _, acc => acc
  | c :: cs, i, acc => lastDotAux cs (i + 1) (if c = '.' then some i else acc)

def lastDot (l : List Char) : Option Nat := lastDotAux l 0 none

/-- path.extname for a separator-free name (the sanitized base contains no
path separators): the suffix from the last dot on; empty when there is no
dot, when the only dot position is the leading character, or when the name
is exactly two dots. -/
def extnamePosix (l : List Char) : List Char :=
  match lastDot l with
  | none => []
  | some i => if i = 0 then [] else if l = ['.', '.'] then [] else l.drop i

/-- sanitizeFilename: sanitize to the allow-list, split off the extension
with path.extname / path.basename, and interpolate the current time between
an underscore and the extension. -/
def sanitizeFilename (filename : List Char) (now : Nat) : List Char :=
  (sanitizedBase filename).take
      ((sanitizedBase filename).length - (extnamePosix (sanitizedBase filename)).length)
    ++ '_' :: (decRepr now ++ extnamePosix (sanitizedBase filename))

/-- path.join of a directory with one relative segment that contains no
separator and no dot-navigation: concatenation with a single separator. -/
def joinPath (dir seg : List Char) : List Char := dir ++ '/' :: seg

/-- p lies directly inside dir: it is dir, a separator, then one nonempty
separator-free segment that is neither a dot nor two dots, so no path
traversal out of dir is possible. -/
def insideDir (dir p : List Char) : Prop :=
  ∃ seg, p = dir ++ '/' :: seg ∧ seg ≠ [] ∧ seg ≠ ['.'] ∧ seg ≠ ['.', '.'] ∧
    '/' ∉ seg ∧ Char.ofNat 92 ∉ seg

theorem decRepr_allowed (n : Nat) : ∀ c ∈ decRepr n, isAllowed c = true := by
  intro c hc
  simp only [decRepr, List.mem_reverse, List.mem_map] at hc
  obtain ⟨d, hd, rfl⟩ := hc
  have hdlt : d < 10 := Nat.digits_lt_base (by norm_num) hd
  interval_cases d <;> decide

theorem sanitizedBase_allowed (fn : List Char) :
    ∀ c ∈ sanitizedBase fn, isAllowed c = true := by
  intro c hc
  simp only [sanitizedBase, List.mem_map] at hc
  obtain ⟨a, _, rfl⟩ := hc
  by_cases h : isAllowed a = true
  · rw [if_pos h]; exact h
  · rw [if_neg h]; decide

theorem extnamePosix_subset (l : List Char) : ∀ c ∈ extnamePosix l, c ∈ l := by
  intro c hc
  unfold extnamePosix at hc
  cases hld : lastDot l with
  | none => rw [hld] at hc; simp at hc
  | some i =>
    rw [hld] at hc
    by_cases hi : i = 0
    · simp [hi] at hc
    · by_cases he : l = ['.', '.']
      · simp [hi, he] at hc
      · simp only [hi, he, if_false] at hc
        exact List.drop_subset _ _ hc

theorem lastDotAux_bound :
    ∀ (l : List Char) (k : Nat) (acc : Option Nat),
      (∀ j, acc = some j → j < k) →
      ∀ i, lastDotAux l k acc = some i → i < k + l.length := by
  intro l
  induction l with
  | nil =>
    intro k acc hacc i h
    simp only [lastDotAux] at h
    have := hacc i h
    omega
  | cons c cs ih =>
    intro k acc hacc i h
    simp only [lastDotAux] at h
    have hinv : ∀ j, (if c = '.' then some k else acc) = some j → j < k + 1 := by
      intro j hj
      by_cases hc : c = '.'
      · rw [if_pos hc] at hj
        injection hj with hj
        omega
      · rw [if_neg hc] at hj
        have := hacc j hj
        omega
    have := ih (k + 1) _ hinv i h
    simp only [List.length_cons]
    omega

theorem lastDot_lt_length (l : List Char) (i : Nat) (h : lastDot l = some i) :
    i < l.length := by
  have := lastDotAux_bound l 0 none (by intro j hj; cases hj) i h
  omega

theorem extnamePosix_split (l : List Char) :
    l.take (l.length - (extnamePosix l).length) ++ extnamePosix l = l := by
  unfold extnamePosix
  cases hld : lastDot l with
  | none => simp
  | some i =>
    by_cases hi : i = 0
    · simp [hi]
    · by_cases he : l = ['.', '.']
      · simp [hi, he]
      · simp only [hi, he, if_false]
        have hlen : i < l.length := lastDot_lt_length l i hld
        have hdrop : (l.drop i).length = l.length - i := List.length_drop i l
        have : l.length - (l.drop i).length = i := by omega
        rw [this, List.take_append_drop]

theorem underscore_mem_sanitize (fn : List Char) (t : Nat) :
    '_' ∈ sanitizeFilename fn t := by
  unfold sanitizeFilename
  exact List.mem_append.mpr (Or.inr (List.mem_cons_self _ _))

theorem sanitizeFilename_allowed (fn : List Char) (t : Nat) :
    ∀ c ∈ sanitizeFilename fn t, isAllowed c = true := by
  intro c hc
  unfold sanitizeFilename at hc
  rcases List.mem_append.mp hc with h1 | h2
  · exact sanitizedBase_allowed fn c (List.take_subset _ _ h1)
  · rcases List.mem_cons.mp h2 with rfl | h3
    · decide
    · rcases List.mem_append.mp h3 with h4 | h5
      · exact decRepr_allowed t c h4
      · exact sanitizedBase_allowed fn c (extnamePosix_subset _ c h5)

theorem sanitizeFilename_time_inj (fn : List Char) (t1 t2 : Nat) (h : t1 ≠ t2) :
    sanitizeFilename fn t1 ≠ sanitizeFilename fn t2 := by
  intro he
  unfold sanitizeFilename at he
  have h2 := List.append_cancel_left he
  have h3 : decRepr t1 ++ extnamePosix (sanitizedBase fn)
      = decRepr t2 ++ extnamePosix (sanitizedBase fn) := by
    injection h2
  have h4 : decRepr t1 = decRepr t2 := List.append_cancel_right h3
  exact h (decRepr_injective h4)

theorem sanitizeFilename_insideDir (fn : List Char) (t : Nat) (dir : List Char) :
    insideDir dir (joinPath dir (sanitizeFilename fn t)) := by
  refine ⟨sanitizeFilename fn t, rfl, ?_, ?_, ?_, ?_, ?_⟩
  · intro he
    have := underscore_mem_sanitize fn t
    rw [he] at this
    simp at this
  · intro he
    have := underscore_mem_sanitize fn t
    rw [he] at this
    simp at this
  · intro he
    have := underscore_mem_sanitize fn t
    rw [he] at this
    simp at this
  · intro hmem
    have := sanitizeFilename_allowed fn t _ hmem
    simp [isAllowed] at this
  · intro hmem
    have := sanitizeFilename_allowed fn t _ hmem
    simp [isAllowed] at this

/-- C6: every sanitizer output consists only of allow-listed characters; it
is the sanitized base split at its extension with exactly the one
time-derived token (underscore then the decimal time) inserted before the
extension; two calls with the same input at different times differ; and
joining the output to any directory — in particular the managed temp
directory — stays directly inside that directory. -/
theorem C6_sanitizer_safe (fn : List Char) (t1 t2 : Nat) (h : t1 ≠ t2)
    (dir : List Char) :
    (∀ c ∈ sanitizeFilename fn t1, isAllowed c = true) ∧
    (∃ name ext, sanitizeFilename fn t1 = name ++ '_' :: (decRepr t1 ++ ext) ∧
      name ++ ext = sanitizedBase fn ∧ ext = extnamePosix (sanitizedBase fn)) ∧
    sanitizeFilename fn t1 ≠ sanitizeFilename fn t2 ∧
    insideDir dir (joinPath dir (sanitizeFilename fn t1)) := by
  refine ⟨sanitizeFilename_allowed fn t1, ?_, sanitizeFilename_time_inj fn t1 t2 h,
    sanitizeFilename_insideDir fn t1 dir⟩
  exact ⟨_, _, rfl, extnamePosix_split (sanitizedBase fn), rfl⟩

/-- Witness for C6 at a concrete filename with spaces and a bang, at times 0
and 1, joined to the managed temp directory name. -/
theorem C6_sanitizer_safe_witness :
    sanitizeFilename ("my file!.png".data) 0 ≠ sanitizeFilename ("my file!.png".data) 1 ∧
    insideDir ("/tmp/renderdragon-assets-temp".data)
      (joinPath ("/tmp/renderdragon-assets-temp".data)
        (sanitizeFilename ("my file!.png".data) 0)) := by
  have h := C6_sanitizer_safe ("my file!.png".data) 0 1 (by decide)
    ("/tmp/renderdragon-assets-temp".data)
  exact ⟨h.2.2.1, h.2.2.2⟩

/-! ## Clipboard delivery (copyFileToClipboard, src/main.js lines 156-209) -/

def sq : Char := Char.ofNat 39

def dq : Char := Char.ofNat 34

def bsl : Char := Char.ofNat 92

def btick : Char := Char.ofNat 96

/-- The win32 escaping filePath.replace of every single quote by two single
quotes, for splicing into a PowerShell single-quoted literal. -/
def escapeWin : List Char → List Char
  | [] => []
  | c :: cs => if c = sq then sq :: sq :: escapeWin cs else c :: escapeWin cs

/-- The darwin escaping filePath.replace of every double quote by the four
characters backslash x 2 2. -/
def escapeDarwin : List Char → List Char
  | [] => []
  | c :: cs =>
    if c = dq then bsl :: 'x' :: '2' :: '2' :: escapeDarwin cs
    else c :: escapeDarwin cs

/-- PowerShell parsing of a single-quoted string literal body: characters up
to the closing quote, where a doubled quote stands for one literal quote;
returns the literal value and the characters after the closing quote. -/
def psSingleQuoted : List Char → Option (List Char × List Char)
  | [] => none
  | c :: cs =>
    if c = sq then
      match cs with
      | [] => some ([], [])
      | c2 :: cs2 =>
        if c2 = sq then (psSingleQuoted cs2).map (fun r => (sq :: r.1, r.2))
        else some ([], cs)
    else (psSingleQuoted cs).map (fun r => (c :: r.1, r.2))

theorem psSingleQuoted_escapeWin (p : List Char) :
    ∀ rest : List Char, (∀ c cs, rest = c :: cs → c ≠ sq) →
      psSingleQuoted (escapeWin p ++ sq :: rest) = some (p, rest) := by
  induction p with
  | nil =>
    intro rest hrest
    cases rest with
    | nil => simp [escapeWin, psSingleQuoted]
    | cons c2 cs2 =>
      have hne : ¬ (c2 = sq) := hrest c2 cs2 rfl
      simp [escapeWin, psSingleQuoted, hne]
  | cons a as ih =>
    intro rest hrest
    have hih := ih rest hrest
    by_cases ha : a = sq
    · subst ha
      simp [escapeWin, psSingleQuoted, hih]
    · simp only [escapeWin, if_neg ha, List.cons_append]
      rw [psSingleQuoted.eq_def]
      dsimp only
      rw [if_neg ha, hih]
      rfl

/-- The argument PowerShell passes to files.Add on win32: the parse of the
single-quoted literal the branch splices the escaped path into, followed by
the close-paren and semicolon of the Add call. Since the script reaches
PowerShell through base64 EncodedCommand, no shell processing intervenes. -/
def winAddArgument (filePath : List Char) : Option (List Char × List Char) :=
  psSingleQuoted (escapeWin filePath ++ sq :: ')' :: ';' :: [])

/-- The win32 variant delivers the exact literal path to the helper for
every input path: an embedded quote cannot terminate the literal early. -/
theorem winAddArgument_exact (p : List Char) :
    winAddArgument p = some (p, ')' :: ';' :: []) := by
  apply psSingleQuoted_escapeWin
  intro c cs h
  cases h
  decide

/-- POSIX shell field splitting of a command line restricted to the
constructs the darwin branch can produce: spaces separate words; a double
quote toggles a quoted region whose spaces are literal; an unquoted
backslash escapes the next character; inside double quotes a backslash is
literal except before a double quote, backslash, dollar or backquote.
Arguments: remaining input, inside-double-quotes flag, current word
accumulator, whether a word has started. A line using unmodeled constructs
(single quotes, dollar or backquote expansion, trailing backslash,
unterminated quote) yields none. -/
def shellSplit : List Char → Bool → List Char → Bool → Option (List String)
  | [], false, cur, started => some (if started then [String.mk cur] else [])
  | [], true, _, _ => none
  | c :: cs, false, cur, started =>
    if c = sq ∨ c = '$' ∨ c = btick then none
    else if c = ' ' then
      if started then (shellSplit cs false [] false).map (fun ws => String.mk cur :: ws)
      else shellSplit cs false [] false
    else if c = dq then shellSplit cs true cur true
    else if c = bsl then
      match cs with
      | [] => none
      | c2 :: cs2 => shellSplit cs2 false (cur ++ [c2]) true
    else shellSplit cs false (cur ++ [c]) true
  | c :: cs, true, cur, started =>
    if c = '$' ∨ c = btick then none
    else if c = dq then shellSplit cs false cur true
    else if c = bsl then
      match cs with
      | [] => none
      | c2 :: cs2 =>
        if c2 = dq ∨ c2 = bsl ∨ c2 = '$' ∨ c2 = btick then
          shellSplit cs2 true (cur ++ [c2]) true
        else shellSplit cs2 true (cur ++ [bsl, c2]) true
    else shellSplit cs true (cur ++ [c]) started

/-- The AppleScript source text the darwin branch builds around the escaped
path. -/
def darwinScript (filePath : List Char) : List Char :=
  ("set the clipboard to POSIX file ".data) ++ dq :: (escapeDarwin filePath ++ [dq])

/-- The full darwin command line handed to the shell: the script is spliced
into a double-quoted shell argument after osascript -e. -/
def darwinCommand (filePath : List Char) : List Char :=
  ("osascript -e ".data) ++ dq :: (darwinScript filePath ++ [dq])

/-- Strips an expected leading character sequence, or none. -/
def dropLeading : List Char → List Char → Option (List Char)
  | [], rest => some rest
  | _ :: _, [] => none
  | c :: cs, d :: ds => if c = d then dropLeading cs ds else none

/-- AppleScript double-quoted string literal body: characters up to the
closing quote, with backslash-quote and backslash-backslash escapes; the
literal must end the script. none on any other shape — in particular a
backslash before any other character is not a valid AppleScript escape. -/
def asStringLit : List Char → List Char → Option (List Char)
  | [], _ => none
  | c :: cs, acc =>
    if c = dq then (if cs = [] then some acc.reverse else none)
    else if c = bsl then
      match cs with
      | [] => none
      | c2 :: cs2 => if c2 = dq ∨ c2 = bsl then asStringLit cs2 (c2 :: acc) else none
    else asStringLit cs (c :: acc)

/-- The path targeted by a script of the shape the darwin branch intends:
the set-clipboard statement followed by one double-quoted AppleScript string
literal; none when the script received is not of that shape. -/
def posixFileTarget (script : List Char) : Option (List Char) :=
  match dropLeading ("set the clipboard to POSIX file ".data) script with
  | none => none
  | some rest =>
    match rest with
    | [] => none
    | c :: cs => if c = dq then asStringLit cs [] else none

/-- A path containing an embedded double quote. -/
def darwinBadPath : List Char := ("/tmp/a".data) ++ dq :: (".png".data)

/-- C2, evaluated at the failing input on the darwin variant: the shell
consumes the quotes that were meant to delimit the AppleScript string and
eats the backslash of the x22 sequence, so the word osascript receives is an
unquoted statement in which the embedded quote has become the letters x22;
it has no POSIX-file string literal at all, and it differs from the script
the code built — the helper does not receive a command targeting the
literal path. (The win32 variant is correct: see winAddArgument_exact.) -/
theorem C2_darwin_escaping_broken :
    shellSplit (darwinCommand darwinBadPath) false [] false
      = some ["osascript", "-e", "set the clipboard to POSIX file /tmp/ax22.png"] ∧
    posixFileTarget ("set the clipboard to POSIX file /tmp/ax22.png".data) = none ∧
    ("set the clipboard to POSIX file /tmp/ax22.png".data) ≠ darwinScript darwinBadPath := by
  refine ⟨by decide, by decide, by decide⟩

/-! ## The copy-to-clipboard handler (src/main.js lines 252-265) -/

/-- The resolved shape of copyFileToClipboard: success carries the type tag
and path, failure carries only the helper error message. -/
inductive ClipResult where
  | ok (typ path : String)
  | err (msg : String)
deriving DecidableEq, Repr

/-- copyFileToClipboard on the external-process platforms: the exec callback
either reports an error — resolved as a failure carrying only the error
message — or the promise resolves with the file path. -/
def copyFileToClipboard (filePath : String) (helperError : Option String) : ClipResult :=
  match helperError with
  | some m => .err m
  | none => .ok "file" filePath

/-- The copy-to-clipboard IPC handler: sanitize the filename, join it into
the temp directory, download with default options, then deliver to the
clipboard; a download rejection is caught and returned as a failure with its
message; after a successful download the handler performs no further
filesystem events — in particular it never deletes the temp file — and
returns the delivery result as-is. -/
def copyToClipboardHandler (tmpDir fn : List Char) (now : Nat) (s : Scenario)
    (helperError : Option String) : ClipResult × List Ev :=
  let tempPath := String.mk (joinPath tmpDir (sanitizeFilename fn now))
  let tr := downloadToFile tempPath maxSizeBytesDefault s
  match findSettled tr with
  | some (.success p) => (copyFileToClipboard p helperError, tr)
  | some (.failure m) => (.err m, tr)
  | none => (.err "", tr)

/-- C10: when the download into the managed temp area succeeds but the
clipboard delivery fails, the handler result carries only the delivery error
message, and the downloaded temp file is still on disk with its full
content. -/
theorem C10_failed_delivery_keeps_temp_file (tmpDir fn : List Char) (now : Nat)
    (s : Scenario) (m : String)
    (h : findSettled (downloadToFile
        (String.mk (joinPath tmpDir (sanitizeFilename fn now))) maxSizeBytesDefault s)
      = some (.success (String.mk (joinPath tmpDir (sanitizeFilename fn now))))) :
    (copyToClipboardHandler tmpDir fn now s (some m)).1 = .err m ∧
    fsAfter (String.mk (joinPath tmpDir (sanitizeFilename fn now)))
        (copyToClipboardHandler tmpDir fn now s (some m)).2
      = some (bodyBytes s) := by
  constructor
  · simp [copyToClipboardHandler, h, copyFileToClipboard]
  · have h2 := downloadToFile_success_fs
      (String.mk (joinPath tmpDir (sanitizeFilename fn now))) maxSizeBytesDefault s _ h
    simp only [copyToClipboardHandler, h]
    exact h2.2

/-- Witness for C10: a successful 3-byte download followed by a failed
PowerShell delivery leaves the 3-byte temp file in place and returns only
the delivery error message. -/
theorem C10_failed_delivery_keeps_temp_file_witness :
    (copyToClipboardHandler ("/tmp/rd".data) ("a.png".data) 7
        (.response 200 none [3] .finish) (some "PowerShell error")).1
      = .err "PowerShell error" ∧
    fsAfter (String.mk (joinPath ("/tmp/rd".data) (sanitizeFilename ("a.png".data) 7)))
        (copyToClipboardHandler ("/tmp/rd".data) ("a.png".data) 7
          (.response 200 none [3] .finish) (some "PowerShell error")).2
      = some (bodyBytes (.response 200 none [3] .finish)) := by
  have h : findSettled (downloadToFile
      (String.mk (joinPath ("/tmp/rd".data) (sanitizeFilename ("a.png".data) 7)))
      maxSizeBytesDefault (.response 200 none [3] .finish))
    = some (.success (String.mk (joinPath ("/tmp/rd".data)
        (sanitizeFilename ("a.png".data) 7)))) := rfl
  exact C10_failed_delivery_keeps_temp_file ("/tmp/rd".data) ("a.png".data) 7
    (.response 200 none [3] .finish) "PowerShell error" h

end Renderdragon
